import Mathlib

/-!
Verification development for the aquatic UDP BitTorrent tracker core.

The development shallowly embeds the request handlers of
src/aquatic/src/lib/handlers.rs and the cleaner of
src/aquatic_udp/src/lib/tasks.rs. Insertion ordered maps (the IndexMap
containers of the source) are embedded as association lists; machine
integers are embedded as Nat; the random generators are embedded as
explicitly passed pick values, so every definition is executable and the
theorems quantify over all possible random draws.
-/

namespace Aquatic

/-- Timestamps (std::time::Instant), embedded as Nat. -/
abbrev Time := Nat

/-- Opaque 64 bit connection cookie, embedded as Nat. -/
abbrev ConnectionId := Nat

/-- Torrent identifier of 20 bytes, embedded as an opaque Nat. -/
abbrev InfoHash := Nat

/-- Client chosen identifier of 20 bytes, embedded as an opaque Nat. -/
abbrev PeerId := Nat

/-- An IP address, either v4 or v6; the payload abstracts the raw bits. -/
inductive IpAddr where
  | v4 : Nat → IpAddr
  | v6 : Nat → IpAddr
deriving DecidableEq, Repr

/-- A socket address: IP address plus port. -/
structure SocketAddr where
  ip : IpAddr
  port : Nat
deriving DecidableEq, Repr

/-- ConnectionKey from handlers.rs: a cookie bound to the source address. -/
structure ConnectionKey where
  connection_id : ConnectionId
  socket_addr : SocketAddr
deriving DecidableEq, Repr

/-- Peer status, per the PeerStatus enum of the source. -/
inductive PeerStatus where
  | seeding
  | leeching
  | stopped
deriving DecidableEq, Repr

/-- Announce events of BEP 15. -/
inductive AnnounceEvent where
  | started
  | stopped
  | completed
  | noEvent
deriving DecidableEq, Repr

/-- A resident peer record. The shape follows the Peer value constructed in
the tests of handlers.rs (ip address, port, status, stored time); the
cleaner of tasks.rs reads the stored time as a validity deadline and
compares it directly against now. -/
structure Peer where
  ip_address : IpAddr
  port : Nat
  status : PeerStatus
  valid_until : Time
deriving DecidableEq, Repr

/-- PeerMapKey from the source: source IP plus peer id; port is not identity. -/
structure PeerMapKey where
  ip : IpAddr
  peer_id : PeerId
deriving DecidableEq, Repr

/-- Insertion ordered map from PeerMapKey to Peer (IndexMap in the source),
embedded as an association list in insertion order. -/
abbrev PeerMap := List (PeerMapKey × Peer)

/-- Per torrent record: peer map plus the two counters. -/
structure TorrentData where
  peers : PeerMap
  num_seeders : Nat
  num_leechers : Nat
deriving DecidableEq, Repr

/-- Default TorrentData, as produced by or_default in the announce handler. -/
def TorrentData.default : TorrentData := ⟨[], 0, 0⟩

/-- Insertion ordered map from InfoHash to TorrentData. -/
abbrev TorrentMap := List (InfoHash × TorrentData)

/-- Insertion ordered connection table from ConnectionKey to stored time. -/
abbrev ConnectionTable := List (ConnectionKey × Time)

/-- One shard of tracker state: the fields of HandlerData used by
handlers.rs (the defining module is not part of the sources; the shape is
forced by the field accesses data.connections and data.torrents). -/
structure HandlerData where
  connections : ConnectionTable
  torrents : TorrentMap
deriving DecidableEq, Repr

/-- The empty shard state. -/
def HandlerData.empty : HandlerData := ⟨[], []⟩

/-- The configuration options consumed by the embedded core. -/
structure Config where
  max_requests_per_iter : Nat
  max_response_peers : Nat
  peer_announce_interval : Nat
deriving DecidableEq, Repr

/- ### Association list operations mirroring IndexMap -/

/-- IndexMap lookup on an association list. -/
def alookup [DecidableEq K] : List (K × V) → K → Option V
  | [], _ => none
  | (k', v') :: t, k => if k = k' then some v' else alookup t k

/-- IndexMap contains_key. -/
def acontains [DecidableEq K] (m : List (K × V)) (k : K) : Bool :=
  (alookup m k).isSome

/-- IndexMap insert: replace the value in place when the key is present
(keeping its position), append otherwise; returns the replaced value. -/
def ainsert [DecidableEq K] : List (K × V) → K → V → Option V × List (K × V)
  | [], k, v => (none, [(k, v)])
  | (k', v') :: t, k, v =>
    if k = k' then (some v', (k', v) :: t)
    else
      let r := ainsert t k v
      (r.1, (k', v') :: r.2)

/-- Index of the entry holding a key, if present. -/
def findIdxOfKey [DecidableEq K] : List (K × V) → K → Option Nat
  | [], _ => none
  | (k', _) :: t, k => if k = k' then some 0 else (findIdxOfKey t k).map (· + 1)

/-- Positional removal by swapping with the last element and popping it,
the Vec swap_remove pattern used by IndexMap remove. -/
def swapRemoveAt (l : List α) (i : Nat) : List α :=
  match l.getLast? with
  | none => []
  | some a => (l.set i a).dropLast

/-- IndexMap remove: locate the key, swap remove its entry, return the
removed value. -/
def aswapRemove [DecidableEq K] (m : List (K × V)) (k : K) : Option V × List (K × V) :=
  match findIdxOfKey m k with
  | none => (none, m)
  | some i => ((m[i]?).map (·.2), swapRemoveAt m i)

/- ### Requests and responses (decoded BEP 15 values) -/

structure ConnectRequest where
  transaction_id : Nat
deriving DecidableEq, Repr

structure AnnounceRequest where
  connection_id : ConnectionId
  transaction_id : Nat
  info_hash : InfoHash
  peer_id : PeerId
  bytes_left : Nat
  event : AnnounceEvent
  port : Nat
  peers_wanted : Int
deriving DecidableEq, Repr

structure ScrapeRequest where
  connection_id : ConnectionId
  transaction_id : Nat
  info_hashes : List InfoHash
deriving DecidableEq, Repr

inductive Request where
  | connect : ConnectRequest → Request
  | announce : AnnounceRequest → Request
  | scrape : ScrapeRequest → Request
deriving DecidableEq, Repr

structure ResponsePeer where
  ip_address : IpAddr
  port : Nat
deriving DecidableEq, Repr

structure ConnectResponse where
  connection_id : ConnectionId
  transaction_id : Nat
deriving DecidableEq, Repr

structure AnnounceResponse where
  transaction_id : Nat
  announce_interval : Nat
  leechers : Nat
  seeders : Nat
  peers : List ResponsePeer
deriving DecidableEq, Repr

structure TorrentScrapeStatistics where
  seeders : Nat
  completed : Nat
  leechers : Nat
deriving DecidableEq, Repr

structure ScrapeResponse where
  transaction_id : Nat
  torrent_stats : List TorrentScrapeStatistics
deriving DecidableEq, Repr

structure ErrorResponse where
  transaction_id : Nat
  message : String
deriving DecidableEq, Repr

inductive Response where
  | connect : ConnectResponse → Response
  | announce : AnnounceResponse → Response
  | scrape : ScrapeResponse → Response
  | error : ErrorResponse → Response
deriving DecidableEq, Repr

/-- Whether a response is an ErrorResponse. -/
def Response.isError : Response → Bool
  | .error _ => true
  | _ => false

/-- Whether a response is a ConnectResponse. -/
def Response.isConnect : Response → Bool
  | .connect _ => true
  | _ => false

/-- Whether a response is an AnnounceResponse. -/
def Response.isAnnounce : Response → Bool
  | .announce _ => true
  | _ => false

/-- Whether a response is a ScrapeResponse. -/
def Response.isScrape : Response → Bool
  | .scrape _ => true
  | _ => false

/- ### Modelled helpers whose defining module is not among the sources -/

/-- Modelled from the spec: the status derivation inside
Peer::from_announce_and_ip (its defining module is not among the sources).
Spec 4.3 step 2: event Stopped gives Stopped; event Completed or
bytes_left zero gives Seeding; otherwise Leeching. -/
def PeerStatus.from_announce (event : AnnounceEvent) (bytes_left : Nat) : PeerStatus :=
  if event = .stopped then .stopped
  else if event = .completed ∨ bytes_left = 0 then .seeding
  else .leeching

/-- Modelled from the spec: Peer::from_announce_and_ip (its defining module
is not among the sources). Builds the fresh Peer record from the request
and the source IP; the stored time is drawn inside the source function and
is therefore taken here as the parameter t. -/
def Peer.from_announce_and_ip (t : Time) (request : AnnounceRequest) (ip : IpAddr) : Peer :=
  { ip_address := ip
    port := request.port
    status := PeerStatus.from_announce request.event request.bytes_left
    valid_until := t }

/-- Modelled from the spec: Peer::to_response_peer (its defining module is
not among the sources): the response peer is the stored IP and port. -/
def Peer.to_response_peer (p : Peer) : ResponsePeer :=
  ⟨p.ip_address, p.port⟩

/- ### Peer sampling (extract_response_peers of handlers.rs) -/

/-- rand gen_range(lo, hi): a uniform draw in [lo, hi); the draw is
determined here by the pick value reduced modulo the range width, so
every value of the real range is reachable by some pick. The source
function panics when lo >= hi; that precondition is discharged separately
for each call site. -/
def genRange (lo hi pick : Nat) : Nat :=
  lo + pick % (hi - lo)

/-- extract_response_peers of handlers.rs. When the map is not larger than
the request, all peers are returned in iteration order; otherwise two
random windows are read by positional index, one per half of the map,
skipping any index that is out of bounds exactly as the source if let does. -/
def extract_response_peers (r1 r2 : Nat) (peer_map : PeerMap)
    (max_num_peers_to_take : Nat) : List ResponsePeer :=
  let peer_map_len := peer_map.length
  if peer_map_len ≤ max_num_peers_to_take then
    peer_map.map (fun kv => kv.2.to_response_peer)
  else
    let half_num_to_take := max_num_peers_to_take / 2
    let half_peer_map_len := peer_map_len / 2
    let offset_first_half :=
      genRange 0 (half_peer_map_len + peer_map_len % 2 - half_num_to_take) r1
    let offset_second_half :=
      genRange half_peer_map_len (peer_map_len - half_num_to_take) r2
    ((List.range' offset_first_half half_num_to_take).filterMap
        (fun i => (peer_map[i]?).map (fun kv => kv.2.to_response_peer)))
      ++ ((List.range' offset_second_half
            (half_num_to_take + max_num_peers_to_take % 2)).filterMap
          (fun i => (peer_map[i]?).map (fun kv => kv.2.to_response_peer)))

/-- The positional indices read by extract_response_peers for the same
arguments: all of them in the small branch, the two windows otherwise. -/
def extracted_indices (peer_map : PeerMap) (max_num_peers_to_take r1 r2 : Nat) :
    List Nat :=
  let peer_map_len := peer_map.length
  if peer_map_len ≤ max_num_peers_to_take then
    List.range peer_map_len
  else
    let half_num_to_take := max_num_peers_to_take / 2
    let half_peer_map_len := peer_map_len / 2
    let offset_first_half :=
      genRange 0 (half_peer_map_len + peer_map_len % 2 - half_num_to_take) r1
    let offset_second_half :=
      genRange half_peer_map_len (peer_map_len - half_num_to_take) r2
    List.range' offset_first_half half_num_to_take
      ++ List.range' offset_second_half (half_num_to_take + max_num_peers_to_take % 2)

/- ### Request handlers (handlers.rs) -/

/-- create_torrent_scrape_statistics of handlers.rs; completed is zero, no
implementation planned. -/
def create_torrent_scrape_statistics (seeders leechers : Nat) : TorrentScrapeStatistics :=
  { seeders := seeders
    completed := 0
    leechers := leechers }

/-- handle_connect_requests of handlers.rs, for one request: draw a fresh
cookie (the draw of the strong RNG is the parameter cid), store the key
with the current time, emit the ConnectResponse to the source address. -/
def handle_connect_request (now : Time) (cid : ConnectionId) (d : HandlerData)
    (request : ConnectRequest) (src : SocketAddr) :
    HandlerData × (Response × SocketAddr) :=
  let key : ConnectionKey := ⟨cid, src⟩
  ({ d with connections := (ainsert d.connections key now).2 },
   (.connect ⟨cid, request.transaction_id⟩, src))

/-- handle_announce_requests of handlers.rs, for one request. The two
sampling draws of the cheap RNG are the parameters r1 r2; now is the time
stored into the fresh Peer record. -/
def handle_announce_request (config : Config) (now : Time) (r1 r2 : Nat)
    (d : HandlerData) (request : AnnounceRequest) (src : SocketAddr) :
    HandlerData × (Response × SocketAddr) :=
  let connection_key : ConnectionKey := ⟨request.connection_id, src⟩
  if ¬ acontains d.connections connection_key then
    (d, (.error ⟨request.transaction_id, "Connection invalid or expired"⟩, src))
  else
    let peer_key : PeerMapKey := ⟨src.ip, request.peer_id⟩
    let peer := Peer.from_announce_and_ip now request src.ip
    let peer_status := peer.status
    let torrent_data := (alookup d.torrents request.info_hash).getD TorrentData.default
    let removed_and_peers :=
      if peer_status = .stopped then
        let r := aswapRemove torrent_data.peers peer_key
        (r.1.map (·.status), r.2)
      else
        let r := ainsert torrent_data.peers peer_key peer
        (r.1.map (·.status), r.2)
    let opt_removed_peer_status := removed_and_peers.1
    let peers1 := removed_and_peers.2
    let max_num_peers_to_take :=
      min request.peers_wanted.toNat config.max_response_peers
    let ns1 := if peer_status = .seeding then torrent_data.num_seeders + 1
               else torrent_data.num_seeders
    let nl1 := if peer_status = .leeching then torrent_data.num_leechers + 1
               else torrent_data.num_leechers
    let ns2 := if opt_removed_peer_status = some .seeding then ns1 - 1 else ns1
    let nl2 := if opt_removed_peer_status = some .leeching then nl1 - 1 else nl1
    let response_peers := extract_response_peers r1 r2 peers1 max_num_peers_to_take
    let torrent_data' : TorrentData := ⟨peers1, ns2, nl2⟩
    ({ d with torrents := (ainsert d.torrents request.info_hash torrent_data').2 },
     (.announce ⟨request.transaction_id, config.peer_announce_interval,
                 nl2, ns2, response_peers⟩, src))

/-- handle_scrape_requests of handlers.rs, for one request: per requested
info hash, in order, the statistics of its torrent, the zero record when
absent. The handler reads the shard state without mutating it. -/
def handle_scrape_request (d : HandlerData) (request : ScrapeRequest)
    (src : SocketAddr) : Response × SocketAddr :=
  let connection_key : ConnectionKey := ⟨request.connection_id, src⟩
  if ¬ acontains d.connections connection_key then
    (.error ⟨request.transaction_id, "Connection invalid or expired"⟩, src)
  else
    let stats := request.info_hashes.map (fun info_hash =>
      match alookup d.torrents info_hash with
      | some torrent_data =>
        create_torrent_scrape_statistics torrent_data.num_seeders torrent_data.num_leechers
      | none => create_torrent_scrape_statistics 0 0)
    (.scrape ⟨request.transaction_id, stats⟩, src)

/-- The connect buffer drain: each request consumes the head of the cookie
stream cids and threads the shard state left to right. -/
def handle_connect_requests (now : Time) (cids : List ConnectionId)
    (d : HandlerData) (requests : List (ConnectRequest × SocketAddr)) :
    HandlerData × List (Response × SocketAddr) :=
  match requests with
  | [] => (d, [])
  | (r, src) :: t =>
    let s1 := handle_connect_request now (cids.headD 0) d r src
    let s2 := handle_connect_requests now cids.tail s1.1 t
    (s2.1, s1.2 :: s2.2)

/-- The announce buffer drain: each request consumes the head of the pick
stream picks and threads the shard state left to right. -/
def handle_announce_requests (config : Config) (now : Time)
    (picks : List (Nat × Nat)) (d : HandlerData)
    (requests : List (AnnounceRequest × SocketAddr)) :
    HandlerData × List (Response × SocketAddr) :=
  match requests with
  | [] => (d, [])
  | (r, src) :: t =>
    let p := picks.headD (0, 0)
    let s1 := handle_announce_request config now p.1 p.2 d r src
    let s2 := handle_announce_requests config now picks.tail s1.1 t
    (s2.1, s1.2 :: s2.2)

/-- The scrape buffer drain: the shard state is only read. -/
def handle_scrape_requests (d : HandlerData)
    (requests : List (ScrapeRequest × SocketAddr)) : List (Response × SocketAddr) :=
  requests.map (fun rs => handle_scrape_request d rs.1 rs.2)

/- ### Batch processing and the worker loop (run_request_worker) -/

/-- The connect buffer collected from a batch, in arrival order. -/
def batchConnects (batch : List (Request × SocketAddr)) :
    List (ConnectRequest × SocketAddr) :=
  batch.filterMap (fun rs =>
    match rs with
    | (.connect r, src) => some (r, src)
    | _ => none)

/-- The announce buffer collected from a batch, in arrival order. -/
def batchAnnounces (batch : List (Request × SocketAddr)) :
    List (AnnounceRequest × SocketAddr) :=
  batch.filterMap (fun rs =>
    match rs with
    | (.announce r, src) => some (r, src)
    | _ => none)

/-- The scrape buffer collected from a batch, in arrival order. -/
def batchScrapes (batch : List (Request × SocketAddr)) :
    List (ScrapeRequest × SocketAddr) :=
  batch.filterMap (fun rs =>
    match rs with
    | (.scrape r, src) => some (r, src)
    | _ => none)

/-- One pass of the body of run_request_worker under the shard mutex:
divide the batch by kind, drain connects, then announces, then scrapes,
concatenating the responses in that order. -/
def processBatch (config : Config) (now : Time) (cids : List ConnectionId)
    (picks : List (Nat × Nat)) (d : HandlerData)
    (batch : List (Request × SocketAddr)) :
    HandlerData × List (Response × SocketAddr) :=
  let s1 := handle_connect_requests now cids d (batchConnects batch)
  let s2 := handle_announce_requests config now picks s1.1 (batchAnnounces batch)
  let rs := handle_scrape_requests s2.1 (batchScrapes batch)
  (s2.1, s1.2 ++ s2.2 ++ rs)

/-- The inbound request channel as the worker observes it: the pending
items, and whether every sender has been dropped. A blocking recv on an
open empty channel never returns, so the model covers channels that are
closed or still hold items. -/
structure Channel where
  items : List (Request × SocketAddr)
  closed : Bool
deriving DecidableEq, Repr

/-- The collection for loop of run_request_worker: up to
max_requests_per_iter receives. A recv error on iteration zero breaks the
loop; on later iterations a timeout leads to the try_lock probe, which in
this single shard model always acquires the guard and breaks. Either way
the break only ends the collection, not the worker. -/
def collect_requests (max : Nat) (ch : Channel) :
    List (Request × SocketAddr) × Channel :=
  match max, ch.items with
  | 0, _ => ([], ch)
  | _ + 1, [] => ([], ch)
  | m + 1, r :: rest =>
    let s := collect_requests m { ch with items := rest }
    (r :: s.1, s.2)

/-- run_request_worker of handlers.rs, fuel bounded: the source outer loop
has no exit of its own, so every unit of fuel performs one full iteration
of collect, process and flush, whatever the channel state is. The returned
value is the channel and shard state after fuel iterations. -/
def run_request_worker (config : Config) (now : Time) (cids : List ConnectionId)
    (picks : List (Nat × Nat)) (fuel : Nat) (ch : Channel) (d : HandlerData) :
    Channel × HandlerData :=
  match fuel with
  | 0 => (ch, d)
  | n + 1 =>
    let c := collect_requests config.max_requests_per_iter ch
    let p := processBatch config now cids picks d c.1
    run_request_worker config now cids picks n c.2 p.1

/- ### Cleaner (tasks.rs) -/

/-- The peer retain loop of clean_torrent_and_peers: walk the peer map in
order, keep the peers whose stored time is still beyond now, and decrement
the matching counter for each dropped peer at the moment it is dropped. -/
def clean_peers (now : Time) : PeerMap → Nat → Nat → PeerMap × Nat × Nat
  | [], ns, nl => ([], ns, nl)
  | (k, p) :: t, ns, nl =>
    if p.valid_until > now then
      let s := clean_peers now t ns nl
      ((k, p) :: s.1, s.2)
    else
      clean_peers now t
        (if p.status = .seeding then ns - 1 else ns)
        (if p.status = .leeching then nl - 1 else nl)

/-- clean_torrent_and_peers of tasks.rs: clean the peers of one torrent,
return the cleaned torrent and whether it is to be kept (a nonempty peer
map). -/
def clean_torrent_and_peers (now : Time) (torrent : TorrentData) :
    TorrentData × Bool :=
  let s := clean_peers now torrent.peers torrent.num_seeders torrent.num_leechers
  (⟨s.1, s.2.1, s.2.2⟩, ¬ s.1.isEmpty)

/-- clean_connections_and_torrents of tasks.rs for one shard: retain the
connection entries whose stored time is beyond now, then retain exactly
the torrents that the access list allows and that keep a nonempty peer map
after peer cleanup. The allows parameter is the access list check of the
configured mode; in Ignore mode the source applies no filter, which is the
instance allows = fun x => true. The capacity shrinking of the source has
no observable effect here. -/
def clean_connections_and_torrents (allows : InfoHash → Bool) (now : Time)
    (d : HandlerData) : HandlerData :=
  { connections := d.connections.filter (fun kv => decide (kv.2 > now))
    torrents := d.torrents.filterMap (fun ht =>
      if allows ht.1 then
        let s := clean_torrent_and_peers now ht.2
        if s.2 then some (ht.1, s.1) else none
      else none) }

/- ### The shard state machine and its counter invariant -/

/-- One shard operation: a connect, announce or scrape handled under the
shard mutex, or one cleaner pass, with every request field, time value,
random draw and access list arbitrary. -/
inductive Step : HandlerData → HandlerData → Prop
  | connect (d : HandlerData) (now : Time) (cid : ConnectionId)
      (request : ConnectRequest) (src : SocketAddr) :
      Step d (handle_connect_request now cid d request src).1
  | announce (d : HandlerData) (config : Config) (now : Time) (r1 r2 : Nat)
      (request : AnnounceRequest) (src : SocketAddr) :
      Step d (handle_announce_request config now r1 r2 d request src).1
  | scrape (d : HandlerData) : Step d d
  | clean (d : HandlerData) (allows : InfoHash → Bool) (now : Time) :
      Step d (clean_connections_and_torrents allows now d)

/-- The shard states reachable from the empty state by any sequence of
operations. -/
inductive Reachable : HandlerData → Prop
  | init : Reachable HandlerData.empty
  | step {d d' : HandlerData} : Reachable d → Step d d' → Reachable d'

/-- The counters of one torrent agree with its peer map. -/
def TorrentData.countersOk (t : TorrentData) : Prop :=
  t.num_seeders = t.peers.countP (fun kv => kv.2.status = .seeding)
    ∧ t.num_leechers = t.peers.countP (fun kv => kv.2.status = .leeching)

/-- Every torrent of the shard has agreeing counters. -/
def HandlerData.invariant (d : HandlerData) : Prop :=
  ∀ ht ∈ d.torrents, TorrentData.countersOk ht.2

/- ### Lemmas about the association list operations -/

section MapLemmas

variable {K V : Type} [DecidableEq K]

lemma alookup_ainsert (m : List (K × V)) (k : K) (v : V) (k' : K) :
    alookup (ainsert m k v).2 k' = if k' = k then some v else alookup m k' := by
  induction m with
  | nil => simp [ainsert, alookup]
  | cons hd t ih =>
    obtain ⟨k0, v0⟩ := hd
    by_cases hk : k = k0
    · subst hk
      by_cases hk' : k' = k <;> simp [ainsert, alookup, hk']
    · by_cases hk' : k' = k0
      · subst hk'
        simp [ainsert, alookup, hk, Ne.symm hk]
      · simp [ainsert, alookup, hk, hk', ih]

lemma ainsert_fst (m : List (K × V)) (k : K) (v : V) :
    (ainsert m k v).1 = alookup m k := by
  induction m with
  | nil => simp [ainsert, alookup]
  | cons hd t ih =>
    obtain ⟨k0, v0⟩ := hd
    by_cases hk : k = k0 <;> simp [ainsert, alookup, hk, ih]

lemma acontains_ainsert_self (m : List (K × V)) (k : K) (v : V) :
    acontains (ainsert m k v).2 k = true := by
  simp [acontains, alookup_ainsert]

lemma acontains_ainsert_mono (m : List (K × V)) (k : K) (v : V) (k' : K)
    (h : acontains m k' = true) : acontains (ainsert m k v).2 k' = true := by
  by_cases hk : k' = k <;> simp [acontains, alookup_ainsert, hk] at h ⊢
  exact h

lemma mem_ainsert (m : List (K × V)) (k : K) (v : V) :
    ∀ kv ∈ (ainsert m k v).2, kv.2 = v ∨ kv ∈ m := by
  induction m with
  | nil => simp [ainsert]
  | cons hd t ih =>
    obtain ⟨k0, v0⟩ := hd
    by_cases hk : k = k0
    · subst hk
      intro kv hkv
      simp [ainsert] at hkv
      rcases hkv with h | h
      · left; rw [h]
      · right; simp [h]
    · intro kv hkv
      simp [ainsert, hk] at hkv
      rcases hkv with h | h
      · right; simp [h]
      · rcases ih kv h with h' | h'
        · left; exact h'
        · right; simp [h']

lemma ainsert_countP (p : V → Bool) (m : List (K × V)) (k : K) (v : V) :
    (ainsert m k v).2.countP (fun kv => p kv.2)
      + (match alookup m k with | some w => if p w then 1 else 0 | none => 0)
    = m.countP (fun kv => p kv.2) + (if p v then 1 else 0) := by
  induction m with
  | nil => simp [ainsert, alookup, List.countP_cons]
  | cons hd t ih =>
    obtain ⟨k0, v0⟩ := hd
    by_cases hk : k = k0
    · subst hk
      simp [ainsert, alookup, List.countP_cons]
      omega
    · simp [ainsert, alookup, hk, List.countP_cons]
      omega

lemma countP_set (q : α → Bool) :
    ∀ (l : List α) (i : Nat) (a : α) (h : i < l.length),
      (l.set i a).countP q + (if q (l[i]) then 1 else 0)
        = l.countP q + (if q a then 1 else 0) := by
  intro l
  induction l with
  | nil => intro i a h; simp at h
  | cons hd t ih =>
    intro i a h
    cases i with
    | zero => simp [List.countP_cons]; omega
    | succ j =>
      have hj : j < t.length := by simpa using h
      have := ih j a hj
      simp only [List.set_cons_succ, List.countP_cons, List.getElem_cons_succ]
      omega

lemma countP_swapRemoveAt (q : α → Bool) (l : List α) (i : Nat) (h : i < l.length) :
    (swapRemoveAt l i).countP q + (if q (l[i]) then 1 else 0)
      = l.countP q := by
  have hne : l ≠ [] := List.ne_nil_of_length_pos (Nat.lt_of_le_of_lt (Nat.zero_le _) h)
  have hlast : l.getLast? = some (l.getLast hne) := List.getLast?_eq_getLast l hne
  set a := l.getLast hne with ha
  have hsw : swapRemoveAt l i = (l.set i a).dropLast := by
    simp [swapRemoveAt, hlast]
  rw [hsw]
  have hLne : l.set i a ≠ [] := by
    intro hcon
    have := List.length_set l i a
    rw [hcon] at this
    simp at this
    omega
  have hdecomp := List.dropLast_append_getLast hLne
  have hcount : ((l.set i a).dropLast).countP q
      + (if q ((l.set i a).getLast hLne) then 1 else 0) = (l.set i a).countP q := by
    conv_rhs => rw [← hdecomp]
    simp [List.countP_append, List.countP_cons]
  have hgl : (l.set i a).getLast hLne = a := by
    rw [List.getLast_eq_getElem]
    have hlen : (l.set i a).length = l.length := List.length_set l i a
    have hidx : l.length - 1 < (l.set i a).length := by omega
    rw [List.getElem_set]
    simp only [List.length_set]
    by_cases hi : i = l.length - 1
    · simp [hi]
    · rw [if_neg hi]
      exact (List.getLast_eq_getElem l hne).symm
  have hset := countP_set q l i a h
  rw [hgl] at hcount
  have hget : l.get ⟨i, h⟩ = l[i] := rfl
  omega

lemma findIdxOfKey_getElem (m : List (K × V)) (k : K) :
    ∀ i, findIdxOfKey m k = some i → ∃ v, m[i]? = some (k, v) := by
  induction m with
  | nil => intro i h; simp [findIdxOfKey] at h
  | cons hd t ih =>
    obtain ⟨k0, v0⟩ := hd
    intro i h
    by_cases hk : k = k0
    · subst hk
      simp [findIdxOfKey] at h
      subst h
      exact ⟨v0, by simp⟩
    · simp [findIdxOfKey, hk] at h
      obtain ⟨j, hj, hji⟩ := h
      obtain ⟨v, hv⟩ := ih j hj
      refine ⟨v, ?_⟩
      rw [← hji]
      simpa using hv

lemma findIdxOfKey_none_iff (m : List (K × V)) (k : K) :
    findIdxOfKey m k = none ↔ alookup m k = none := by
  induction m with
  | nil => simp [findIdxOfKey, alookup]
  | cons hd t ih =>
    obtain ⟨k0, v0⟩ := hd
    by_cases hk : k = k0 <;> simp [findIdxOfKey, alookup, hk, ih]

lemma aswapRemove_countP (p : V → Bool) (m : List (K × V)) (k : K) :
    (aswapRemove m k).2.countP (fun kv => p kv.2)
      + (match (aswapRemove m k).1 with
         | some w => if p w then 1 else 0
         | none => 0)
    = m.countP (fun kv => p kv.2) := by
  rcases h : findIdxOfKey m k with _ | i
  · simp [aswapRemove, h]
  · obtain ⟨v, hv⟩ := findIdxOfKey_getElem m k i h
    have hi : i < m.length := by
      by_contra hcon
      rw [List.getElem?_eq_none (by omega)] at hv
      exact Option.noConfusion hv
    have hvi : m[i] = (k, v) := by
      have := List.getElem?_eq_getElem hi
      rw [hv] at this
      exact (Option.some.injEq _ _).mp this.symm
    have hcount := countP_swapRemoveAt (fun kv => p kv.2) m i hi
    rw [hvi] at hcount
    simp only [aswapRemove, h, hv]
    simpa using hcount

end MapLemmas

/- ### Peer sampling: lemmas and the C2 theorem -/

lemma filterMap_getElem_range' (f : α → β) :
    ∀ (n s : Nat) (m : List α), s + n ≤ m.length →
      (List.range' s n).filterMap (fun i => (m[i]?).map f)
        = ((m.drop s).take n).map f := by
  intro n
  induction n with
  | zero => intro s m h; simp
  | succ n ih =>
    intro s m h
    have hs : s < m.length := by omega
    rw [List.range'_succ]
    simp only [List.filterMap_cons]
    rw [List.getElem?_eq_getElem hs]
    rw [List.drop_eq_getElem_cons hs]
    simp only [Option.map_some', List.take_succ_cons, List.map_cons]
    rw [ih (s + 1) m (by omega)]

lemma take_drop_map_sub (f : α → β) (m : List α) (s n : Nat)
    (h : s + n ≤ m.length) :
    (((m.drop s).take n).map f).length = n
      ∧ ∀ b ∈ ((m.drop s).take n).map f, ∃ a ∈ m, f a = b := by
  constructor
  · simp
    omega
  · intro b hb
    obtain ⟨a, ha, hfa⟩ := List.mem_map.mp hb
    exact ⟨a, List.mem_of_mem_drop (List.mem_of_mem_take ha), hfa⟩

/-- C2: for every PeerMap of size n, every requested count k, and every
pair of random draws, extract_response_peers returns exactly min k n
peers, every returned peer comes from the map, the positional indices it
reads are pairwise distinct and all within bounds, the result is exactly
the in-bounds reads at those indices, and both gen_range call sites
satisfy the strict lower-than-upper precondition (so the source never
panics and never indexes out of bounds, for any n, in particular for
n = k and n = k + 1). -/
theorem extract_response_peers_spec (m : PeerMap) (k r1 r2 : Nat) :
    (extract_response_peers r1 r2 m k).length = min k m.length
    ∧ (extract_response_peers r1 r2 m k)
        = (extracted_indices m k r1 r2).filterMap
            (fun i => (m[i]?).map (fun kv => kv.2.to_response_peer))
    ∧ (∀ i ∈ extracted_indices m k r1 r2, i < m.length)
    ∧ (extracted_indices m k r1 r2).Nodup
    ∧ (∀ p ∈ extract_response_peers r1 r2 m k, ∃ kv ∈ m, kv.2.to_response_peer = p)
    ∧ (k < m.length →
        0 < m.length / 2 + m.length % 2 - k / 2
        ∧ m.length / 2 < m.length - k / 2) := by
  by_cases hle : m.length ≤ k
  · have hmin : min k m.length = m.length := Nat.min_eq_right hle
    have heq : extract_response_peers r1 r2 m k
        = m.map (fun kv => kv.2.to_response_peer) := by
      simp [extract_response_peers, hle]
    have hidx : extracted_indices m k r1 r2 = List.range m.length := by
      simp [extracted_indices, hle]
    refine ⟨?_, ?_, ?_, ?_, ?_, ?_⟩
    · rw [heq, hmin]; simp
    · rw [heq, hidx]
      have := filterMap_getElem_range' (fun kv : PeerMapKey × Peer => kv.2.to_response_peer)
        m.length 0 m (by omega)
      rw [List.range_eq_range'] at *
      rw [this]
      simp
    · rw [hidx]; intro i hi; simpa using List.mem_range.mp (by simpa using hi)
    · rw [hidx]; exact List.nodup_range _
    · rw [heq]; intro p hp
      obtain ⟨kv, hkv, hf⟩ := List.mem_map.mp hp
      exact ⟨kv, hkv, hf⟩
    · intro hlt; omega
  · have hlt : k < m.length := by omega
    have h1 : 0 < m.length / 2 + m.length % 2 - k / 2 := by omega
    have h2 : m.length / 2 < m.length - k / 2 := by omega
    set off1 := genRange 0 (m.length / 2 + m.length % 2 - k / 2) r1 with hof1
    set off2 := genRange (m.length / 2) (m.length - k / 2) r2 with hof2
    have hoff1b : off1 < m.length / 2 + m.length % 2 - k / 2 := by
      rw [hof1]; unfold genRange
      simpa using Nat.mod_lt r1 h1
    have hoff2lo : m.length / 2 ≤ off2 := by
      rw [hof2]; unfold genRange
      exact Nat.le_add_right _ _
    have hoff2b : off2 < m.length - k / 2 := by
      rw [hof2]; unfold genRange
      have := Nat.mod_lt r2 (y := m.length - k / 2 - m.length / 2) (by omega)
      omega
    have hb1 : off1 + k / 2 ≤ m.length := by omega
    have hb1' : off1 + k / 2 ≤ m.length / 2 + m.length % 2 - 1 := by omega
    have hb2 : off2 + (k / 2 + k % 2) ≤ m.length := by omega
    have heq : extract_response_peers r1 r2 m k
        = (List.range' off1 (k / 2)).filterMap
            (fun i => (m[i]?).map (fun kv => kv.2.to_response_peer))
          ++ (List.range' off2 (k / 2 + k % 2)).filterMap
            (fun i => (m[i]?).map (fun kv => kv.2.to_response_peer)) := by
      simp only [extract_response_peers, hof1, hof2]
      rw [if_neg (by omega)]
    have hidx : extracted_indices m k r1 r2
        = List.range' off1 (k / 2) ++ List.range' off2 (k / 2 + k % 2) := by
      simp only [extracted_indices, hof1, hof2]
      rw [if_neg (by omega)]
    have hw1 := filterMap_getElem_range'
      (fun kv : PeerMapKey × Peer => kv.2.to_response_peer) (k / 2) off1 m hb1
    have hw2 := filterMap_getElem_range'
      (fun kv : PeerMapKey × Peer => kv.2.to_response_peer) (k / 2 + k % 2) off2 m hb2
    have hmem1 : ∀ i ∈ List.range' off1 (k / 2), i < m.length := by
      intro i hi
      obtain ⟨j, hj, hij⟩ := List.mem_range'.mp hi
      omega
    have hmem2 : ∀ i ∈ List.range' off2 (k / 2 + k % 2), i < m.length := by
      intro i hi
      obtain ⟨j, hj, hij⟩ := List.mem_range'.mp hi
      omega
    refine ⟨?_, ?_, ?_, ?_, ?_, fun _ => ⟨h1, h2⟩⟩
    · rw [heq, hw1, hw2]
      simp only [List.length_append, List.length_map, List.length_take,
        List.length_drop]
      omega
    · rw [heq, hidx, List.filterMap_append]
    · rw [hidx]
      intro i hi
      rcases List.mem_append.mp hi with h | h
      · exact hmem1 i h
      · exact hmem2 i h
    · rw [hidx]
      refine List.Nodup.append (List.nodup_range' _ _) (List.nodup_range' _ _) ?_
      intro i hi1 hi2
      obtain ⟨j1, hj1, hij1⟩ := List.mem_range'.mp hi1
      obtain ⟨j2, hj2, hij2⟩ := List.mem_range'.mp hi2
      omega
    · rw [heq, hw1, hw2]
      intro p hp
      rcases List.mem_append.mp hp with h | h
      · exact (take_drop_map_sub _ m off1 (k / 2) hb1).2 p h
      · exact (take_drop_map_sub _ m off2 (k / 2 + k % 2) hb2).2 p h

/-- Witness for C2 at a concrete five peer map with four peers requested,
the n equal to k plus one boundary: both gen_range preconditions hold. -/
theorem extract_response_peers_spec_witness :
    0 < ([(⟨.v4 0, 0⟩, ⟨.v4 0, 1000, .leeching, 9⟩),
          (⟨.v4 1, 1⟩, ⟨.v4 1, 1001, .leeching, 9⟩),
          (⟨.v4 2, 2⟩, ⟨.v4 2, 1002, .seeding, 9⟩),
          (⟨.v4 3, 3⟩, ⟨.v4 3, 1003, .leeching, 9⟩),
          (⟨.v4 4, 4⟩, ⟨.v4 4, 1004, .seeding, 9⟩)] : PeerMap).length / 2
        + ([(⟨.v4 0, 0⟩, ⟨.v4 0, 1000, .leeching, 9⟩),
            (⟨.v4 1, 1⟩, ⟨.v4 1, 1001, .leeching, 9⟩),
            (⟨.v4 2, 2⟩, ⟨.v4 2, 1002, .seeding, 9⟩),
            (⟨.v4 3, 3⟩, ⟨.v4 3, 1003, .leeching, 9⟩),
            (⟨.v4 4, 4⟩, ⟨.v4 4, 1004, .seeding, 9⟩)] : PeerMap).length % 2 - 4 / 2
    ∧ ([(⟨.v4 0, 0⟩, ⟨.v4 0, 1000, .leeching, 9⟩),
        (⟨.v4 1, 1⟩, ⟨.v4 1, 1001, .leeching, 9⟩),
        (⟨.v4 2, 2⟩, ⟨.v4 2, 1002, .seeding, 9⟩),
        (⟨.v4 3, 3⟩, ⟨.v4 3, 1003, .leeching, 9⟩),
        (⟨.v4 4, 4⟩, ⟨.v4 4, 1004, .seeding, 9⟩)] : PeerMap).length / 2
      < ([(⟨.v4 0, 0⟩, ⟨.v4 0, 1000, .leeching, 9⟩),
          (⟨.v4 1, 1⟩, ⟨.v4 1, 1001, .leeching, 9⟩),
          (⟨.v4 2, 2⟩, ⟨.v4 2, 1002, .seeding, 9⟩),
          (⟨.v4 3, 3⟩, ⟨.v4 3, 1003, .leeching, 9⟩),
          (⟨.v4 4, 4⟩, ⟨.v4 4, 1004, .seeding, 9⟩)] : PeerMap).length - 4 / 2 :=
  (extract_response_peers_spec
      [(⟨.v4 0, 0⟩, ⟨.v4 0, 1000, .leeching, 9⟩),
       (⟨.v4 1, 1⟩, ⟨.v4 1, 1001, .leeching, 9⟩),
       (⟨.v4 2, 2⟩, ⟨.v4 2, 1002, .seeding, 9⟩),
       (⟨.v4 3, 3⟩, ⟨.v4 3, 1003, .leeching, 9⟩),
       (⟨.v4 4, 4⟩, ⟨.v4 4, 1004, .seeding, 9⟩)] 4 3 5).2.2.2.2.2 (by decide)

/- ### Counter bookkeeping lemmas for the C1 invariant -/

lemma alookup_mem {K V : Type} [DecidableEq K] (m : List (K × V)) (k : K) (v : V)
    (h : alookup m k = some v) : (k, v) ∈ m := by
  induction m with
  | nil => simp [alookup] at h
  | cons hd t ih =>
    obtain ⟨k0, v0⟩ := hd
    by_cases hk : k = k0
    · subst hk
      simp [alookup] at h
      simp [h]
    · simp [alookup, hk] at h
      simp [ih h]

lemma clean_peers_spec (now : Time) :
    ∀ (m : PeerMap) (ns nl : Nat),
      m.countP (fun kv => kv.2.status = .seeding) ≤ ns →
      m.countP (fun kv => kv.2.status = .leeching) ≤ nl →
      (clean_peers now m ns nl).2.1
          + m.countP (fun kv => kv.2.status = .seeding)
        = ns + (clean_peers now m ns nl).1.countP (fun kv => kv.2.status = .seeding)
      ∧ (clean_peers now m ns nl).2.2
          + m.countP (fun kv => kv.2.status = .leeching)
        = nl + (clean_peers now m ns nl).1.countP (fun kv => kv.2.status = .leeching) := by
  intro m
  induction m with
  | nil => intro ns nl hs hl; simp [clean_peers]
  | cons hd t ih =>
    intro ns nl hs nlh
    obtain ⟨k, p⟩ := hd
    rw [List.countP_cons] at hs nlh
    by_cases hkeep : p.valid_until > now
    · have := ih ns nl (by omega) (by omega)
      simp only [clean_peers, if_pos hkeep, List.countP_cons]
      omega
    · have hs' : t.countP (fun kv => kv.2.status = .seeding)
          ≤ if p.status = .seeding then ns - 1 else ns := by
        by_cases hps : p.status = .seeding <;> simp [hps] at hs ⊢ <;> omega
      have hl' : t.countP (fun kv => kv.2.status = .leeching)
          ≤ if p.status = .leeching then nl - 1 else nl := by
        by_cases hpl : p.status = .leeching <;> simp [hpl] at nlh ⊢ <;> omega
      have := ih (if p.status = .seeding then ns - 1 else ns)
        (if p.status = .leeching then nl - 1 else nl) hs' hl'
      simp only [clean_peers, if_neg hkeep, List.countP_cons]
      rcases hps : p.status <;> simp only [hps] at this hs nlh ⊢ <;> simp at * <;> omega

lemma clean_torrent_countersOk (now : Time) (t : TorrentData)
    (h : t.countersOk) : ((clean_torrent_and_peers now t).1).countersOk := by
  obtain ⟨h1, h2⟩ := h
  have := clean_peers_spec now t.peers t.num_seeders t.num_leechers
    (by omega) (by omega)
  constructor
  · simp only [clean_torrent_and_peers]
    omega
  · simp only [clean_torrent_and_peers]
    omega

/-- The mutated TorrentData built by the announce handler has agreeing
counters whenever the starting TorrentData does. -/
lemma mutated_counters_ok (td0 : TorrentData) (peer : Peer) (key : PeerMapKey)
    (h0 : td0.countersOk)
    (removed : Option PeerStatus) (peers1 : PeerMap)
    (hrp : (if peer.status = .stopped
            then (((aswapRemove td0.peers key).1.map (·.status)),
                  (aswapRemove td0.peers key).2)
            else (((ainsert td0.peers key peer).1.map (·.status)),
                  (ainsert td0.peers key peer).2))
          = (removed, peers1)) :
    TorrentData.countersOk
      ⟨peers1,
       (if removed = some .seeding
        then (if peer.status = .seeding then td0.num_seeders + 1 else td0.num_seeders) - 1
        else (if peer.status = .seeding then td0.num_seeders + 1 else td0.num_seeders)),
       (if removed = some .leeching
        then (if peer.status = .leeching then td0.num_leechers + 1 else td0.num_leechers) - 1
        else (if peer.status = .leeching then td0.num_leechers + 1 else td0.num_leechers))⟩ := by
  obtain ⟨h0s, h0l⟩ := h0
  by_cases hst : peer.status = .stopped
  · rw [if_pos hst] at hrp
    have hrem : removed = (aswapRemove td0.peers key).1.map (·.status) :=
      (Prod.mk.injEq _ _ _ _ |>.mp hrp).1.symm
    have hpe : peers1 = (aswapRemove td0.peers key).2 :=
      (Prod.mk.injEq _ _ _ _ |>.mp hrp).2.symm
    have hcs := aswapRemove_countP (fun v : Peer => decide (v.status = .seeding))
      td0.peers key
    have hcl := aswapRemove_countP (fun v : Peer => decide (v.status = .leeching))
      td0.peers key
    rcases hr : (aswapRemove td0.peers key).1 with _ | w
    · rw [hr] at hrem hcs hcl
      simp only [Option.map_none'] at hrem
      subst hrem hpe
      constructor <;> simp [hst, TorrentData.countersOk] at * <;> omega
    · rw [hr] at hrem hcs hcl
      simp only [Option.map_some'] at hrem
      subst hrem hpe
      rcases hws : w.status <;>
        constructor <;>
        simp [hst, hws, TorrentData.countersOk] at * <;> omega
  · rw [if_neg hst] at hrp
    have hrem : removed = (ainsert td0.peers key peer).1.map (·.status) :=
      (Prod.mk.injEq _ _ _ _ |>.mp hrp).1.symm
    have hpe : peers1 = (ainsert td0.peers key peer).2 :=
      (Prod.mk.injEq _ _ _ _ |>.mp hrp).2.symm
    have hcs := ainsert_countP (fun v : Peer => decide (v.status = .seeding))
      td0.peers key peer
    have hcl := ainsert_countP (fun v : Peer => decide (v.status = .leeching))
      td0.peers key peer
    rw [ainsert_fst] at hrem
    rcases hr : alookup td0.peers key with _ | w
    · rw [hr] at hrem hcs hcl
      simp only [Option.map_none'] at hrem
      subst hrem hpe
      rcases hps : peer.status <;>
        constructor <;>
        simp [hps, TorrentData.countersOk] at * <;> omega
    · rw [hr] at hrem hcs hcl
      simp only [Option.map_some'] at hrem
      subst hrem hpe
      rcases hps : peer.status <;> rcases hws : w.status <;>
        constructor <;>
        simp [hps, hws, hst, TorrentData.countersOk] at * <;> omega

/- ### Invariant preservation per operation -/

lemma handle_connect_torrents (now : Time) (cid : ConnectionId) (d : HandlerData)
    (request : ConnectRequest) (src : SocketAddr) :
    ((handle_connect_request now cid d request src).1).torrents = d.torrents := rfl

lemma handle_announce_connections (config : Config) (now : Time) (r1 r2 : Nat)
    (d : HandlerData) (request : AnnounceRequest) (src : SocketAddr) :
    ((handle_announce_request config now r1 r2 d request src).1).connections
      = d.connections := by
  by_cases hc : acontains d.connections ⟨request.connection_id, src⟩ = true <;>
    simp [handle_announce_request, hc]

lemma handle_connect_invariant (now : Time) (cid : ConnectionId) (d : HandlerData)
    (request : ConnectRequest) (src : SocketAddr) (hinv : d.invariant) :
    ((handle_connect_request now cid d request src).1).invariant := by
  intro ht hmem
  rw [handle_connect_torrents] at hmem
  exact hinv ht hmem

lemma handle_announce_invariant (config : Config) (now : Time) (r1 r2 : Nat)
    (d : HandlerData) (request : AnnounceRequest) (src : SocketAddr)
    (hinv : d.invariant) :
    ((handle_announce_request config now r1 r2 d request src).1).invariant := by
  by_cases hc : acontains d.connections ⟨request.connection_id, src⟩ = true
  · simp only [handle_announce_request, hc, not_true_eq_false, if_false]
    intro ht hmem
    simp only at hmem
    rcases mem_ainsert _ _ _ ht hmem with hv | hold
    · rw [hv]
      have h0 : ((alookup d.torrents request.info_hash).getD TorrentData.default).countersOk := by
        rcases hlk : alookup d.torrents request.info_hash with _ | v
        · exact ⟨rfl, rfl⟩
        · exact hinv (request.info_hash, v) (alookup_mem _ _ _ hlk)
      exact mutated_counters_ok _ (Peer.from_announce_and_ip now request src.ip)
        ⟨src.ip, request.peer_id⟩ h0 _ _ rfl
    · exact hinv ht hold
  · simp only [handle_announce_request, hc, not_false_eq_true, if_true]
    exact hinv

lemma clean_invariant (allows : InfoHash → Bool) (now : Time) (d : HandlerData)
    (hinv : d.invariant) :
    (clean_connections_and_torrents allows now d).invariant := by
  intro ht hmem
  simp only [clean_connections_and_torrents, List.mem_filterMap] at hmem
  obtain ⟨a, ha, hf⟩ := hmem
  by_cases hal : allows a.1 = true
  · rw [if_pos hal] at hf
    by_cases hkeep : (clean_torrent_and_peers now a.2).2 = true
    · rw [if_pos hkeep] at hf
      have := clean_torrent_countersOk now a.2 (hinv a ha)
      have hht : ht = (a.1, (clean_torrent_and_peers now a.2).1) :=
        (Option.some.injEq _ _).mp hf |>.symm
      rw [hht]
      exact this
    · rw [if_neg hkeep] at hf
      exact absurd hf (Option.noConfusion)
  · rw [if_neg hal] at hf
    exact absurd hf (Option.noConfusion)

lemma step_invariant {d d' : HandlerData} (h : Step d d') (hinv : d.invariant) :
    d'.invariant := by
  cases h with
  | connect now cid request src => exact handle_connect_invariant now cid d request src hinv
  | announce config now r1 r2 request src =>
    exact handle_announce_invariant config now r1 r2 d request src hinv
  | scrape => exact hinv
  | clean allows now => exact clean_invariant allows now d hinv

/-- C1: every state reachable from the empty state by any sequence of
Connect, Announce, Scrape and cleaner operations has, in every TorrentData
of its torrent map, num_seeders equal to the number of peers whose status
is Seeding and num_leechers equal to the number of peers whose status is
Leeching. -/
theorem torrent_counters_invariant (d : HandlerData) (h : Reachable d) :
    d.invariant := by
  induction h with
  | init => intro ht hmem; simp [HandlerData.empty] at hmem
  | step _ hstep ih => exact step_invariant hstep ih

/-- Witness for C1 at a concrete two step reachable state: a Connect
followed by a valid Announce from 10.0.0.1. -/
theorem torrent_counters_invariant_witness :
    HandlerData.invariant
      ((handle_announce_request ⟨128, 255, 900⟩ 11 0 0
        ((handle_connect_request 10 77 HandlerData.empty ⟨42⟩ ⟨.v4 1, 6881⟩).1)
        ⟨77, 43, 5, 100, 50, .started, 6881, 50⟩ ⟨.v4 1, 6881⟩).1) :=
  torrent_counters_invariant _
    (Reachable.step
      (Reachable.step Reachable.init
        (Step.connect HandlerData.empty 10 77 ⟨42⟩ ⟨.v4 1, 6881⟩))
      (Step.announce _ ⟨128, 255, 900⟩ 11 0 0
        ⟨77, 43, 5, 100, 50, .started, 6881, 50⟩ ⟨.v4 1, 6881⟩))

/- ### C3: unknown connection key -/

/-- C3: an Announce or Scrape whose (connection_id, source address) key is
absent from the connection table yields the ErrorResponse with message
Connection invalid or expired and the transaction id of the request, and
the whole shard state is left unchanged (the announce handler returns the
input state; the scrape handler takes the state read only). -/
theorem invalid_connection_rejected (config : Config) (now : Time) (r1 r2 : Nat)
    (d : HandlerData) (areq : AnnounceRequest) (sreq : ScrapeRequest)
    (src : SocketAddr)
    (ha : acontains d.connections ⟨areq.connection_id, src⟩ = false)
    (hs : acontains d.connections ⟨sreq.connection_id, src⟩ = false) :
    handle_announce_request config now r1 r2 d areq src
      = (d, (.error ⟨areq.transaction_id, "Connection invalid or expired"⟩, src))
    ∧ handle_scrape_request d sreq src
      = (.error ⟨sreq.transaction_id, "Connection invalid or expired"⟩, src) := by
  constructor
  · simp [handle_announce_request, ha]
  · simp [handle_scrape_request, hs]

/-- Witness for C3 at a concrete request against the empty shard. -/
theorem invalid_connection_rejected_witness :
    handle_announce_request ⟨128, 255, 900⟩ 5 0 0 HandlerData.empty
        ⟨1, 2, 3, 4, 5, .started, 6, 7⟩ ⟨.v4 1, 68⟩
      = (HandlerData.empty,
         (.error ⟨2, "Connection invalid or expired"⟩, ⟨.v4 1, 68⟩))
    ∧ handle_scrape_request HandlerData.empty ⟨1, 2, [3]⟩ ⟨.v4 1, 68⟩
      = (.error ⟨2, "Connection invalid or expired"⟩, ⟨.v4 1, 68⟩) :=
  invalid_connection_rejected ⟨128, 255, 900⟩ 5 0 0 HandlerData.empty
    ⟨1, 2, 3, 4, 5, .started, 6, 7⟩ ⟨1, 2, [3]⟩ ⟨.v4 1, 68⟩ rfl rfl

/- ### C5: cleaner connection expiry -/

/-- C5: immediately after a cleaner pass every remaining connection entry
satisfies stored time plus connection_ttl strictly beyond now (the stored
time is the now value the Connect handler wrote for the entry), and every
entry whose stored time plus connection_ttl is at most now is evicted. -/
theorem cleaner_connection_expiry (allows : InfoHash → Bool) (now : Time)
    (connection_ttl : Nat) (d : HandlerData) :
    (∀ kv ∈ (clean_connections_and_torrents allows now d).connections,
        kv.2 + connection_ttl > now)
    ∧ (∀ kv ∈ d.connections, kv.2 + connection_ttl ≤ now →
        kv ∉ (clean_connections_and_torrents allows now d).connections) := by
  constructor
  · intro kv hkv
    have h2 := (List.mem_filter.mp hkv).2
    simp at h2
    exact Nat.lt_of_lt_of_le h2 (Nat.le_add_right _ _)
  · intro kv _ hle hmem
    have h2 := (List.mem_filter.mp hmem).2
    simp at h2
    exact absurd (Nat.lt_of_lt_of_le h2 (Nat.le_trans (Nat.le_add_right _ _) hle))
      (lt_irrefl now)

/-- Witness for C5: with now 10 and ttl 3, the entry stored at 5 is
evicted by the cleaner. -/
theorem cleaner_connection_expiry_witness :
    (⟨⟨1, ⟨.v4 1, 6881⟩⟩, 5⟩ : ConnectionKey × Time)
      ∉ (clean_connections_and_torrents (fun _ => true) 10
          ⟨[(⟨1, ⟨.v4 1, 6881⟩⟩, 5), (⟨2, ⟨.v4 1, 6881⟩⟩, 20)], []⟩).connections :=
  (cleaner_connection_expiry (fun _ => true) 10 3
      ⟨[(⟨1, ⟨.v4 1, 6881⟩⟩, 5), (⟨2, ⟨.v4 1, 6881⟩⟩, 20)], []⟩).2
    ⟨⟨1, ⟨.v4 1, 6881⟩⟩, 5⟩ (by simp) (by decide)

/- ### C9: scrape response contents -/

/-- C9: a Scrape with a valid connection yields a ScrapeResponse carrying
the transaction id, with exactly one TorrentScrapeStatistics per requested
info hash in request order, the zero record for hashes without
TorrentData, and completed zero in every entry. -/
theorem scrape_response_spec (d : HandlerData) (request : ScrapeRequest)
    (src : SocketAddr)
    (hc : acontains d.connections ⟨request.connection_id, src⟩ = true) :
    ∃ stats : List TorrentScrapeStatistics,
      handle_scrape_request d request src
          = (.scrape ⟨request.transaction_id, stats⟩, src)
      ∧ stats.length = request.info_hashes.length
      ∧ (∀ i : Nat, stats[i]? = (request.info_hashes[i]?).map (fun info_hash =>
            match alookup d.torrents info_hash with
            | some torrent_data =>
              create_torrent_scrape_statistics torrent_data.num_seeders
                torrent_data.num_leechers
            | none => create_torrent_scrape_statistics 0 0))
      ∧ (∀ s ∈ stats, s.completed = 0) := by
  refine ⟨request.info_hashes.map (fun info_hash =>
    match alookup d.torrents info_hash with
    | some torrent_data =>
      create_torrent_scrape_statistics torrent_data.num_seeders
        torrent_data.num_leechers
    | none => create_torrent_scrape_statistics 0 0), ?_, ?_, ?_, ?_⟩
  · simp [handle_scrape_request, hc]
  · simp
  · intro i
    rw [List.getElem?_map]
  · intro s hs
    obtain ⟨info_hash, _, hf⟩ := List.mem_map.mp hs
    rw [← hf]
    rcases alookup d.torrents info_hash with _ | t <;> rfl

/-- Witness for C9: a concrete scrape of a present and an absent hash. -/
theorem scrape_response_spec_witness :
    ∃ stats : List TorrentScrapeStatistics,
      handle_scrape_request
          ⟨[(⟨7, ⟨.v4 2, 68⟩⟩, 4)], [(5, ⟨[(⟨.v4 1, 100⟩, ⟨.v4 1, 68, .leeching, 9⟩)], 0, 1⟩)]⟩
          ⟨7, 47, [5, 123]⟩ ⟨.v4 2, 68⟩
          = (.scrape ⟨47, stats⟩, ⟨.v4 2, 68⟩)
      ∧ stats.length = ([5, 123] : List InfoHash).length
      ∧ (∀ i : Nat, stats[i]? = (([5, 123] : List InfoHash)[i]?).map (fun info_hash =>
            match alookup
                ([(5, ⟨[(⟨.v4 1, 100⟩, ⟨.v4 1, 68, .leeching, 9⟩)], 0, 1⟩)] : TorrentMap)
                info_hash with
            | some torrent_data =>
              create_torrent_scrape_statistics torrent_data.num_seeders
                torrent_data.num_leechers
            | none => create_torrent_scrape_statistics 0 0))
      ∧ (∀ s ∈ stats, s.completed = 0) :=
  scrape_response_spec
    ⟨[(⟨7, ⟨.v4 2, 68⟩⟩, 4)], [(5, ⟨[(⟨.v4 1, 100⟩, ⟨.v4 1, 68, .leeching, 9⟩)], 0, 1⟩)]⟩
    ⟨7, 47, [5, 123]⟩ ⟨.v4 2, 68⟩ rfl

/- ### Batch processing lemmas for C6 and C10 -/

lemma getD_tail (cids : List Nat) (j : Nat) (x : Nat) :
    (cids.tail).getD j x = cids.getD (j + 1) x := by
  cases cids <;> simp [List.getD]

lemma headD_eq_getD_zero (cids : List Nat) (x : Nat) :
    cids.headD x = cids.getD 0 x := by
  cases cids <;> simp [List.getD]

lemma getD_pair_tail (picks : List (Nat × Nat)) (j : Nat) (x : Nat × Nat) :
    (picks.tail).getD j x = picks.getD (j + 1) x := by
  cases picks <;> simp [List.getD]

lemma headD_pair_eq_getD_zero (picks : List (Nat × Nat)) (x : Nat × Nat) :
    picks.headD x = picks.getD 0 x := by
  cases picks <;> simp [List.getD]

lemma handle_connect_requests_length (now : Time) :
    ∀ (requests : List (ConnectRequest × SocketAddr)) (cids : List ConnectionId)
      (d : HandlerData),
      ((handle_connect_requests now cids d requests).2).length = requests.length := by
  intro requests
  induction requests with
  | nil => intro cids d; simp [handle_connect_requests]
  | cons hd t ih =>
    intro cids d
    obtain ⟨r, src⟩ := hd
    simp [handle_connect_requests, ih]

lemma handle_connect_requests_get (now : Time) :
    ∀ (requests : List (ConnectRequest × SocketAddr)) (cids : List ConnectionId)
      (d : HandlerData) (j : Nat) (r : ConnectRequest × SocketAddr),
      requests[j]? = some r →
      ((handle_connect_requests now cids d requests).2)[j]?
        = some ((.connect ⟨cids.getD j 0, r.1.transaction_id⟩ : Response), r.2) := by
  intro requests
  induction requests with
  | nil => intro cids d j r h; simp at h
  | cons hd t ih =>
    intro cids d j r h
    obtain ⟨r0, src0⟩ := hd
    cases j with
    | zero =>
      simp at h
      simp [handle_connect_requests, handle_connect_request, ← h,
        headD_eq_getD_zero, List.head?_eq_getElem?]
    | succ i =>
      simp at h
      simp only [handle_connect_requests, List.getElem?_cons_succ]
      rw [ih cids.tail _ i r (by simpa using h), getD_tail]

lemma connect_contains_preserved (now : Time) :
    ∀ (requests : List (ConnectRequest × SocketAddr)) (cids : List ConnectionId)
      (d : HandlerData) (key : ConnectionKey),
      acontains d.connections key = true →
      acontains ((handle_connect_requests now cids d requests).1).connections key
        = true := by
  intro requests
  induction requests with
  | nil => intro cids d key h; simpa [handle_connect_requests] using h
  | cons hd t ih =>
    intro cids d key h
    obtain ⟨r0, src0⟩ := hd
    simp only [handle_connect_requests]
    exact ih cids.tail _ key (acontains_ainsert_mono _ _ _ _ h)

lemma handle_connect_requests_inserts (now : Time) :
    ∀ (requests : List (ConnectRequest × SocketAddr)) (cids : List ConnectionId)
      (d : HandlerData) (j : Nat) (r : ConnectRequest × SocketAddr),
      requests[j]? = some r →
      acontains ((handle_connect_requests now cids d requests).1).connections
        ⟨cids.getD j 0, r.2⟩ = true := by
  intro requests
  induction requests with
  | nil => intro cids d j r h; simp at h
  | cons hd t ih =>
    intro cids d j r h
    obtain ⟨r0, src0⟩ := hd
    cases j with
    | zero =>
      simp at h
      simp only [handle_connect_requests]
      rw [headD_eq_getD_zero] at *
      apply connect_contains_preserved
      rw [← h]
      exact acontains_ainsert_self _ _ _
    | succ i =>
      simp at h
      simp only [handle_connect_requests]
      rw [← getD_tail]
      exact ih cids.tail _ i r (by simpa using h)

lemma handle_announce_requests_connections (config : Config) (now : Time) :
    ∀ (requests : List (AnnounceRequest × SocketAddr)) (picks : List (Nat × Nat))
      (d : HandlerData),
      ((handle_announce_requests config now picks d requests).1).connections
        = d.connections := by
  intro requests
  induction requests with
  | nil => intro picks d; simp [handle_announce_requests]
  | cons hd t ih =>
    intro picks d
    obtain ⟨r0, src0⟩ := hd
    simp only [handle_announce_requests]
    rw [ih, handle_announce_connections]

lemma handle_announce_requests_length (config : Config) (now : Time) :
    ∀ (requests : List (AnnounceRequest × SocketAddr)) (picks : List (Nat × Nat))
      (d : HandlerData),
      ((handle_announce_requests config now picks d requests).2).length
        = requests.length := by
  intro requests
  induction requests with
  | nil => intro picks d; simp [handle_announce_requests]
  | cons hd t ih =>
    intro picks d
    obtain ⟨r0, src0⟩ := hd
    simp [handle_announce_requests, ih]

lemma handle_announce_requests_get (config : Config) (now : Time) :
    ∀ (requests : List (AnnounceRequest × SocketAddr)) (picks : List (Nat × Nat))
      (d : HandlerData) (j : Nat) (r : AnnounceRequest × SocketAddr),
      requests[j]? = some r →
      ∃ d1 : HandlerData, d1.connections = d.connections
        ∧ ((handle_announce_requests config now picks d requests).2)[j]?
          = some ((handle_announce_request config now (picks.getD j (0, 0)).1
              (picks.getD j (0, 0)).2 d1 r.1 r.2).2) := by
  intro requests
  induction requests with
  | nil => intro picks d j r h; simp at h
  | cons hd t ih =>
    intro picks d j r h
    obtain ⟨r0, src0⟩ := hd
    cases j with
    | zero =>
      simp at h
      refine ⟨d, rfl, ?_⟩
      simp only [handle_announce_requests, List.getElem?_cons_zero]
      rw [headD_pair_eq_getD_zero, ← h]
    | succ i =>
      simp at h
      obtain ⟨d1, hd1, hresp⟩ := ih picks.tail
        (handle_announce_request config now (picks.headD (0, 0)).1
          (picks.headD (0, 0)).2 d r0 src0).1 i r (by simpa using h)
      refine ⟨d1, ?_, ?_⟩
      · rw [hd1, handle_announce_connections]
      · simp only [handle_announce_requests, List.getElem?_cons_succ]
        rw [hresp, getD_pair_tail]

lemma handle_announce_response_src (config : Config) (now : Time) (r1 r2 : Nat)
    (d : HandlerData) (request : AnnounceRequest) (src : SocketAddr) :
    ((handle_announce_request config now r1 r2 d request src).2).2 = src := by
  by_cases hc : acontains d.connections ⟨request.connection_id, src⟩ = true <;>
    simp [handle_announce_request, hc]

lemma handle_announce_response_kind (config : Config) (now : Time) (r1 r2 : Nat)
    (d : HandlerData) (request : AnnounceRequest) (src : SocketAddr) :
    ((handle_announce_request config now r1 r2 d request src).2).1.isAnnounce = true
      ∨ ((handle_announce_request config now r1 r2 d request src).2).1.isError = true := by
  by_cases hc : acontains d.connections ⟨request.connection_id, src⟩ = true
  · left; simp [handle_announce_request, hc, Response.isAnnounce]
  · right; simp [handle_announce_request, hc, Response.isError]

lemma handle_announce_response_valid (config : Config) (now : Time) (r1 r2 : Nat)
    (d : HandlerData) (request : AnnounceRequest) (src : SocketAddr)
    (hc : acontains d.connections ⟨request.connection_id, src⟩ = true) :
    ((handle_announce_request config now r1 r2 d request src).2).1.isAnnounce
      = true := by
  simp [handle_announce_request, hc, Response.isAnnounce]

lemma handle_scrape_response_src (d : HandlerData) (request : ScrapeRequest)
    (src : SocketAddr) :
    (handle_scrape_request d request src).2 = src := by
  by_cases hc : acontains d.connections ⟨request.connection_id, src⟩ = true <;>
    simp [handle_scrape_request, hc]

lemma handle_scrape_response_kind (d : HandlerData) (request : ScrapeRequest)
    (src : SocketAddr) :
    (handle_scrape_request d request src).1.isScrape = true
      ∨ (handle_scrape_request d request src).1.isError = true := by
  by_cases hc : acontains d.connections ⟨request.connection_id, src⟩ = true
  · left; simp [handle_scrape_request, hc, Response.isScrape]
  · right; simp [handle_scrape_request, hc, Response.isError]

lemma batch_partition_length (batch : List (Request × SocketAddr)) :
    (batchConnects batch).length + (batchAnnounces batch).length
      + (batchScrapes batch).length = batch.length := by
  induction batch with
  | nil => simp [batchConnects, batchAnnounces, batchScrapes]
  | cons hd t ih =>
    obtain ⟨req, src⟩ := hd
    cases req <;>
      simp [batchConnects, batchAnnounces, batchScrapes, List.filterMap_cons]
        at ih ⊢ <;> omega

/-- C6: within one batch every Connect is drained before every Announce
(and every Announce before every Scrape), so an Announce whose connection
id is the cookie issued to the same source address by the j-th Connect of
the same batch is accepted: its response, located after the Connect
responses, is an AnnounceResponse and not the invalid connection error. -/
theorem connect_then_announce_same_batch (config : Config) (now : Time)
    (cids : List ConnectionId) (picks : List (Nat × Nat)) (d : HandlerData)
    (batch : List (Request × SocketAddr)) (j m : Nat)
    (rc : ConnectRequest × SocketAddr) (ra : AnnounceRequest × SocketAddr)
    (hj : (batchConnects batch)[j]? = some rc)
    (hm : (batchAnnounces batch)[m]? = some ra)
    (hcid : ra.1.connection_id = cids.getD j 0)
    (hsrc : ra.2 = rc.2) :
    ∃ resp : Response × SocketAddr,
      ((processBatch config now cids picks d batch).2)[(batchConnects batch).length + m]?
        = some resp
      ∧ resp.1.isAnnounce = true := by
  have hcont := handle_connect_requests_inserts now (batchConnects batch) cids d j rc hj
  obtain ⟨d1, hd1c, hresp⟩ := handle_announce_requests_get config now
    (batchAnnounces batch) picks
    (handle_connect_requests now cids d (batchConnects batch)).1 m ra hm
  have hc1 : acontains d1.connections ⟨ra.1.connection_id, ra.2⟩ = true := by
    rw [hd1c, hcid, hsrc]
    exact hcont
  refine ⟨(handle_announce_request config now (picks.getD m (0, 0)).1
      (picks.getD m (0, 0)).2 d1 ra.1 ra.2).2, ?_,
    handle_announce_response_valid config now (picks.getD m (0, 0)).1
      (picks.getD m (0, 0)).2 d1 ra.1 ra.2 hc1⟩
  have hlenA := handle_connect_requests_length now (batchConnects batch) cids d
  have hmB : m < ((handle_announce_requests config now picks
      (handle_connect_requests now cids d (batchConnects batch)).1
      (batchAnnounces batch)).2).length :=
    (List.getElem?_eq_some.mp hresp).1
  simp only [processBatch]
  rw [List.append_assoc, ← hlenA,
    List.getElem?_append_right (Nat.le_add_right _ _)]
  simp only [Nat.add_sub_cancel_left]
  rw [List.getElem?_append_left hmB]
  exact hresp

/-- Witness for C6: a Connect for 10.0.0.1 issued cookie 77 followed in the
same batch by an Announce from 10.0.0.1 using cookie 77. -/
theorem connect_then_announce_same_batch_witness :
    ∃ resp : Response × SocketAddr,
      ((processBatch ⟨128, 255, 900⟩ 10 [77] [] HandlerData.empty
          [(.connect ⟨42⟩, ⟨.v4 1, 6881⟩),
           (.announce ⟨77, 43, 5, 100, 50, .started, 6881, 50⟩, ⟨.v4 1, 6881⟩)]).2)[
        (batchConnects
          [(.connect ⟨42⟩, ⟨.v4 1, 6881⟩),
           (.announce ⟨77, 43, 5, 100, 50, .started, 6881, 50⟩, ⟨.v4 1, 6881⟩)]).length + 0]?
        = some resp
      ∧ resp.1.isAnnounce = true :=
  connect_then_announce_same_batch ⟨128, 255, 900⟩ 10 [77] [] HandlerData.empty
    [(.connect ⟨42⟩, ⟨.v4 1, 6881⟩),
     (.announce ⟨77, 43, 5, 100, 50, .started, 6881, 50⟩, ⟨.v4 1, 6881⟩)]
    0 0 (⟨42⟩, ⟨.v4 1, 6881⟩) (⟨77, 43, 5, 100, 50, .started, 6881, 50⟩, ⟨.v4 1, 6881⟩)
    (by decide) (by decide) (by decide) (by decide)

/-- C10: processing a batch yields exactly one response per collected
request, each addressed to the source address of its request: a
ConnectResponse for the j-th Connect, an AnnounceResponse or ErrorResponse
for the m-th Announce, a ScrapeResponse or ErrorResponse for the i-th
Scrape, at the corresponding position of the response buffer. -/
theorem batch_responses_spec (config : Config) (now : Time)
    (cids : List ConnectionId) (picks : List (Nat × Nat)) (d : HandlerData)
    (batch : List (Request × SocketAddr)) :
    ((processBatch config now cids picks d batch).2).length = batch.length
    ∧ (∀ (j : Nat) (rc : ConnectRequest × SocketAddr),
        (batchConnects batch)[j]? = some rc →
        ∃ resp : Response × SocketAddr,
          ((processBatch config now cids picks d batch).2)[j]? = some resp
          ∧ resp.1.isConnect = true ∧ resp.2 = rc.2)
    ∧ (∀ (m : Nat) (ra : AnnounceRequest × SocketAddr),
        (batchAnnounces batch)[m]? = some ra →
        ∃ resp : Response × SocketAddr,
          ((processBatch config now cids picks d batch).2)[
              (batchConnects batch).length + m]? = some resp
          ∧ (resp.1.isAnnounce = true ∨ resp.1.isError = true) ∧ resp.2 = ra.2)
    ∧ (∀ (i : Nat) (rs : ScrapeRequest × SocketAddr),
        (batchScrapes batch)[i]? = some rs →
        ∃ resp : Response × SocketAddr,
          ((processBatch config now cids picks d batch).2)[
              (batchConnects batch).length + (batchAnnounces batch).length + i]?
            = some resp
          ∧ (resp.1.isScrape = true ∨ resp.1.isError = true) ∧ resp.2 = rs.2) := by
  have hlenA := handle_connect_requests_length now (batchConnects batch) cids d
  have hlenB := handle_announce_requests_length config now (batchAnnounces batch)
    picks (handle_connect_requests now cids d (batchConnects batch)).1
  refine ⟨?_, ?_, ?_, ?_⟩
  · simp only [processBatch, List.length_append, handle_scrape_requests,
      List.length_map]
    have := batch_partition_length batch
    omega
  · intro j rc hj
    have hget := handle_connect_requests_get now (batchConnects batch) cids d j rc hj
    have hjA : j < ((handle_connect_requests now cids d (batchConnects batch)).2).length :=
      (List.getElem?_eq_some.mp hget).1
    refine ⟨((.connect ⟨cids.getD j 0, rc.1.transaction_id⟩ : Response), rc.2),
      ?_, rfl, rfl⟩
    simp only [processBatch]
    rw [List.append_assoc, List.getElem?_append_left hjA]
    exact hget
  · intro m ra hm
    obtain ⟨d1, _, hresp⟩ := handle_announce_requests_get config now
      (batchAnnounces batch) picks
      (handle_connect_requests now cids d (batchConnects batch)).1 m ra hm
    have hmB : m < ((handle_announce_requests config now picks
        (handle_connect_requests now cids d (batchConnects batch)).1
        (batchAnnounces batch)).2).length :=
      (List.getElem?_eq_some.mp hresp).1
    refine ⟨(handle_announce_request config now (picks.getD m (0, 0)).1
        (picks.getD m (0, 0)).2 d1 ra.1 ra.2).2, ?_, ?_, ?_⟩
    · simp only [processBatch]
      rw [List.append_assoc, ← hlenA,
        List.getElem?_append_right (Nat.le_add_right _ _)]
      simp only [Nat.add_sub_cancel_left]
      rw [List.getElem?_append_left hmB]
      exact hresp
    · exact handle_announce_response_kind config now _ _ d1 ra.1 ra.2
    · exact handle_announce_response_src config now _ _ d1 ra.1 ra.2
  · intro i rs hi
    refine ⟨handle_scrape_request
        (handle_announce_requests config now picks
          (handle_connect_requests now cids d (batchConnects batch)).1
          (batchAnnounces batch)).1 rs.1 rs.2, ?_, ?_, ?_⟩
    · simp only [processBatch]
      have hC : (handle_scrape_requests
          (handle_announce_requests config now picks
            (handle_connect_requests now cids d (batchConnects batch)).1
            (batchAnnounces batch)).1 (batchScrapes batch))[i]?
          = some (handle_scrape_request
              (handle_announce_requests config now picks
                (handle_connect_requests now cids d (batchConnects batch)).1
                (batchAnnounces batch)).1 rs.1 rs.2) := by
        simp only [handle_scrape_requests, List.getElem?_map, hi, Option.map_some']
      rw [← hlenA, ← hlenB,
        List.getElem?_append_right (by simp only [List.length_append]; omega)]
      have : ((handle_connect_requests now cids d (batchConnects batch)).2).length
          + ((handle_announce_requests config now picks
              (handle_connect_requests now cids d (batchConnects batch)).1
              (batchAnnounces batch)).2).length + i
          - (((handle_connect_requests now cids d (batchConnects batch)).2)
              ++ (handle_announce_requests config now picks
                (handle_connect_requests now cids d (batchConnects batch)).1
                (batchAnnounces batch)).2).length = i := by
        simp only [List.length_append]
        omega
      rw [this]
      exact hC
    · exact handle_scrape_response_kind _ rs.1 rs.2
    · exact handle_scrape_response_src _ rs.1 rs.2

/-- Witness for C10 at a concrete three request batch: the announce
response sits right after the connect response and is addressed to the
announcing source. -/
theorem batch_responses_spec_witness :
    ∃ resp : Response × SocketAddr,
      ((processBatch ⟨128, 255, 900⟩ 10 [77] [] HandlerData.empty
          [(.connect ⟨42⟩, ⟨.v4 1, 6881⟩),
           (.announce ⟨9, 43, 5, 100, 50, .started, 6881, 50⟩, ⟨.v4 2, 6881⟩),
           (.scrape ⟨9, 44, [5]⟩, ⟨.v4 3, 6881⟩)]).2)[
        (batchConnects
          [(.connect ⟨42⟩, ⟨.v4 1, 6881⟩),
           (.announce ⟨9, 43, 5, 100, 50, .started, 6881, 50⟩, ⟨.v4 2, 6881⟩),
           (.scrape ⟨9, 44, [5]⟩, ⟨.v4 3, 6881⟩)]).length + 0]? = some resp
      ∧ (resp.1.isAnnounce = true ∨ resp.1.isError = true)
      ∧ resp.2 = (⟨.v4 2, 6881⟩ : SocketAddr) :=
  (batch_responses_spec ⟨128, 255, 900⟩ 10 [77] [] HandlerData.empty
      [(.connect ⟨42⟩, ⟨.v4 1, 6881⟩),
       (.announce ⟨9, 43, 5, 100, 50, .started, 6881, 50⟩, ⟨.v4 2, 6881⟩),
       (.scrape ⟨9, 44, [5]⟩, ⟨.v4 3, 6881⟩)]).2.2.1
    0 (⟨9, 43, 5, 100, 50, .started, 6881, 50⟩, ⟨.v4 2, 6881⟩) (by decide)

/- ### C7: the handler state has one torrent map for both address families -/

/-- Counterexample to C7: the announce handler of handlers.rs keeps a
single torrent map keyed by info hash only. After an IPv4 peer announces
info hash 5 and an IPv6 peer then announces the same hash, both peers sit
in the same TorrentData, and the IPv6 requester receives the IPv4 peer in
its response, so the IPv4 announce did populate the map serving IPv6
requesters; there are no separate per family maps to leave unchanged. -/
theorem ipv6_announce_response_contains_ipv4_peer :
    (handle_announce_request ⟨128, 255, 900⟩ 12 0 0
        (handle_announce_request ⟨128, 255, 900⟩ 11 0 0
          ⟨[(⟨77, ⟨.v4 1, 6881⟩⟩, 10), (⟨88, ⟨.v6 9, 6881⟩⟩, 10)], []⟩
          ⟨77, 43, 5, 100, 50, .started, 6881, 50⟩ ⟨.v4 1, 6881⟩).1
        ⟨88, 46, 5, 101, 0, .started, 6881, 50⟩ ⟨.v6 9, 6881⟩).2
      = (.announce ⟨46, 900, 1, 1, [⟨.v4 1, 6881⟩, ⟨.v6 9, 6881⟩]⟩, ⟨.v6 9, 6881⟩)
    ∧ (handle_announce_request ⟨128, 255, 900⟩ 12 0 0
        (handle_announce_request ⟨128, 255, 900⟩ 11 0 0
          ⟨[(⟨77, ⟨.v4 1, 6881⟩⟩, 10), (⟨88, ⟨.v6 9, 6881⟩⟩, 10)], []⟩
          ⟨77, 43, 5, 100, 50, .started, 6881, 50⟩ ⟨.v4 1, 6881⟩).1
        ⟨88, 46, 5, 101, 0, .started, 6881, 50⟩ ⟨.v6 9, 6881⟩).1.torrents
      = [(5, ⟨[(⟨.v4 1, 100⟩, ⟨.v4 1, 6881, .leeching, 11⟩),
               (⟨.v6 9, 101⟩, ⟨.v6 9, 6881, .seeding, 12⟩)], 1, 1⟩)] := by
  constructor <;> decide

/-- C7 amended: every announce, whatever the address family of its source,
works in the one shared torrent map; the frame that does hold is that an
announce leaves the connection table unchanged and touches no torrent map
entry other than the one of its own info hash. -/
theorem announce_frame_single_map (config : Config) (now : Time) (r1 r2 : Nat)
    (d : HandlerData) (request : AnnounceRequest) (src : SocketAddr) :
    ((handle_announce_request config now r1 r2 d request src).1).connections
        = d.connections
    ∧ ∀ other_hash : InfoHash, other_hash ≠ request.info_hash →
        alookup ((handle_announce_request config now r1 r2 d request src).1).torrents
            other_hash
          = alookup d.torrents other_hash := by
  refine ⟨handle_announce_connections config now r1 r2 d request src, ?_⟩
  intro other_hash hne
  by_cases hc : acontains d.connections ⟨request.connection_id, src⟩ = true
  · simp only [handle_announce_request, hc, not_true_eq_false, if_false]
    rw [alookup_ainsert]
    simp [hne]
  · simp [handle_announce_request, hc]

/-- Witness for the amended C7: the IPv4 announce on hash 5 leaves the
entry of hash 999 exactly as it was. -/
theorem announce_frame_single_map_witness :
    alookup ((handle_announce_request ⟨128, 255, 900⟩ 11 0 0
        ⟨[(⟨77, ⟨.v4 1, 6881⟩⟩, 10)], [(999, ⟨[], 0, 0⟩)]⟩
        ⟨77, 43, 5, 100, 50, .started, 6881, 50⟩ ⟨.v4 1, 6881⟩).1).torrents 999
      = alookup ([(999, ⟨[], 0, 0⟩)] : TorrentMap) 999 :=
  (announce_frame_single_map ⟨128, 255, 900⟩ 11 0 0
      ⟨[(⟨77, ⟨.v4 1, 6881⟩⟩, 10)], [(999, ⟨[], 0, 0⟩)]⟩
      ⟨77, 43, 5, 100, 50, .started, 6881, 50⟩ ⟨.v4 1, 6881⟩).2
    999 (by decide)

/- ### C8: a Stopped announce on a fresh info hash creates an entry -/

/-- Counterexample to C8: with a valid connection, an Announce whose
derived status is Stopped for an info hash that has no TorrentData does
leave an entry in the torrent map: the or_default of the entry call
inserts a default TorrentData before the peer removal runs, so the lookup
afterwards finds the empty record instead of nothing. -/
theorem stopped_announce_creates_empty_torrent_entry :
    alookup ((handle_announce_request ⟨128, 255, 900⟩ 11 0 0
        ⟨[(⟨77, ⟨.v4 1, 6881⟩⟩, 10)], []⟩
        ⟨77, 44, 999, 100, 50, .stopped, 6881, 50⟩ ⟨.v4 1, 6881⟩).1).torrents 999
      = some ⟨[], 0, 0⟩ := by
  decide

/-- C8 amended: processing an Announce with derived status Stopped and a
valid connection for an info hash with no existing TorrentData leaves the
torrent map with a default (empty, zero counter) TorrentData entry for
that hash, created by the locate or create step before the removal. -/
theorem stopped_announce_creates_default_entry (config : Config) (now : Time)
    (r1 r2 : Nat) (d : HandlerData) (request : AnnounceRequest) (src : SocketAddr)
    (hc : acontains d.connections ⟨request.connection_id, src⟩ = true)
    (hst : request.event = .stopped)
    (habs : alookup d.torrents request.info_hash = none) :
    alookup ((handle_announce_request config now r1 r2 d request src).1).torrents
        request.info_hash = some TorrentData.default := by
  simp only [handle_announce_request, hc, not_true_eq_false, if_false]
  rw [alookup_ainsert]
  simp only [if_pos rfl]
  simp [Peer.from_announce_and_ip, PeerStatus.from_announce, hst, habs,
    TorrentData.default, aswapRemove, findIdxOfKey]

/-- Witness for the amended C8 at the counterexample input. -/
theorem stopped_announce_creates_default_entry_witness :
    alookup ((handle_announce_request ⟨128, 255, 900⟩ 11 0 0
        ⟨[(⟨77, ⟨.v4 2, 6881⟩⟩, 10)], []⟩
        ⟨77, 44, 123, 100, 50, .stopped, 6881, 50⟩ ⟨.v4 2, 6881⟩).1).torrents 123
      = some TorrentData.default :=
  stopped_announce_creates_default_entry ⟨128, 255, 900⟩ 11 0 0
    ⟨[(⟨77, ⟨.v4 2, 6881⟩⟩, 10)], []⟩
    ⟨77, 44, 123, 100, 50, .stopped, 6881, 50⟩ ⟨.v4 2, 6881⟩ rfl rfl rfl

/- ### C4: the worker loop and the closed inbound channel -/

/-- C4 (code behavior at the failing input): when the inbound channel is
closed and empty, the recv error only breaks the inner collection loop;
the outer loop of run_request_worker has no exit, so the worker keeps
iterating with empty batches forever: after any number of further
iterations it is still looping with the state unchanged, rather than
terminating. -/
theorem run_request_worker_spins_on_closed_channel (config : Config) (now : Time)
    (cids : List ConnectionId) (picks : List (Nat × Nat)) (d : HandlerData)
    (fuel : Nat) :
    run_request_worker config now cids picks fuel ⟨[], true⟩ d
      = (⟨[], true⟩, d) := by
  induction fuel with
  | zero => rfl
  | succ n ih =>
    have hcol : collect_requests config.max_requests_per_iter ⟨[], true⟩
        = ([], ⟨[], true⟩) := by
      cases config.max_requests_per_iter <;> rfl
    simp only [run_request_worker, hcol]
    exact ih

end Aquatic
